import Mathlib

/-!
Verification of the `TraderState` market-state replicator
(`static/otree_markets/trader_state.js`).

The component keeps, for one participant (the "viewer", identified by
`pcode`): a bid book and an ask book (sorted lists of orders), a trade
ledger, and a holdings ledger (available/settled cash, available/settled
assets per asset name).  It is driven by inbound confirmation events
(`confirm_enter`, `confirm_trade`, `confirm_cancel`, `error`); any other
message type makes the dispatcher throw before touching any state.

Shallow embedding conventions: JS numbers used as timestamps, cash and
asset amounts are modelled as `ℚ`; the integer-typed fields (`price`,
`volume`, `traded_volume`, `order_id`) as `ℤ`; the asset dictionaries as
total functions `String → ℚ` (they are seeded with every asset name at
construction, so lookups never miss); Polymer `splice`/`set` calls become
pure list and record updates.  DOM event dispatches and `console.warn`
have no effect on the replicated state and are dropped.
-/

/-- An order object, as described at the top of the messaging spec. -/
structure Order where
  timestamp : ℚ
  price : ℤ
  volume : ℤ
  is_bid : Bool
  pcode : String
  traded_volume : ℤ
  order_id : ℤ
  asset_name : String
deriving DecidableEq, Repr

/-- A `confirm_trade` payload: a trade with one taking order and a list of
making orders. -/
structure Trade where
  timestamp : ℚ
  asset_name : String
  taking_order : Order
  making_orders : List Order
deriving DecidableEq, Repr

/-- The replicated state held by the `trader-state` component: the viewer's
participant code, both books, the trade ledger and the four holdings
quantities. -/
structure TraderState where
  pcode : String
  bids : List Order
  asks : List Order
  trades : List Trade
  settledAssetsDict : String → ℚ
  availableAssetsDict : String → ℚ
  settledCash : ℚ
  availableCash : ℚ

/-- `_update_subproperty(property, subproperty, amount)`: read the current
value under a key of an assets dict and add `amount` to it. -/
def update_subproperty (d : String → ℚ) (k : String) (amount : ℚ) : String → ℚ :=
  fun k2 => if k2 = k then d k + amount else d k2

/-- `_compare_orders(o1, o2)`: compare two orders a la C strcmp.  Equal
prices compare by negated timestamp difference (the source comment reads
"sort by descending timestamp"); otherwise by price difference. -/
def compare_orders (o1 o2 : Order) : ℚ :=
  if o1.price = o2.price then -(o1.timestamp - o2.timestamp)
  else (o1.price : ℚ) - (o2.price : ℚ)

/-- The list part of `_insert_bid`: scan from the front for the first
resident bid `b` with `_compare_orders(b, order) < 0` and insert the new
order immediately before it (at the end when there is none). -/
def insert_bid_list (l : List Order) (o : Order) : List Order :=
  match l with
  | [] => [o]
  | b :: rest => if compare_orders b o < 0 then o :: b :: rest else b :: insert_bid_list rest o

/-- The list part of `_insert_ask`: scan from the front for the first
resident ask `a` with `_compare_orders(a, order) > 0` and insert the new
order immediately before it (at the end when there is none). -/
def insert_ask_list (l : List Order) (o : Order) : List Order :=
  match l with
  | [] => [o]
  | a :: rest => if compare_orders a o > 0 then o :: a :: rest else a :: insert_ask_list rest o

/-- `_insert_bid(order)`: sorted insert into `bids`; when the order is the
viewer's own, reserve `price * volume` out of `availableCash`. -/
def insert_bid (o : Order) (s : TraderState) : TraderState :=
  let s1 := { s with bids := insert_bid_list s.bids o }
  if o.pcode = s1.pcode then
    { s1 with availableCash := s1.availableCash - (o.price : ℚ) * (o.volume : ℚ) }
  else s1

/-- `_insert_ask(order)`: sorted insert into `asks`; when the order is the
viewer's own, reserve `volume` out of `availableAssetsDict[asset_name]`. -/
def insert_ask (o : Order) (s : TraderState) : TraderState :=
  let s1 := { s with asks := insert_ask_list s.asks o }
  if o.pcode = s1.pcode then
    { s1 with availableAssetsDict :=
        update_subproperty s1.availableAssetsDict o.asset_name (-(o.volume : ℚ)) }
  else s1

/-- `_handle_confirm_enter(msg)`: insert the confirmed order into the book
selected by its `is_bid` flag. -/
def handle_confirm_enter (o : Order) (s : TraderState) : TraderState :=
  if o.is_bid then insert_bid o s else insert_ask o s

/-- The list part of `_remove_order`: scan for the first order with the
given `order_id` and splice it out; when none matches, warn (dropped in the
embedding) and leave the list unchanged. -/
def remove_order_list (l : List Order) (oid : ℤ) : List Order :=
  match l with
  | [] => []
  | x :: rest => if x.order_id = oid then rest else x :: remove_order_list rest oid

/-- `_remove_order(order)`: remove the first order with a matching
`order_id` from the book selected by `order.is_bid`; absent ids are a
non-fatal warning and leave the state unchanged. -/
def remove_order (o : Order) (s : TraderState) : TraderState :=
  if o.is_bid then { s with bids := remove_order_list s.bids o.order_id }
  else { s with asks := remove_order_list s.asks o.order_id }

/-- `_update_holdings(price, volume, is_bid, asset_name)`: apply one trade
leg to the viewer's holdings.  A buy leg gains `volume` of the asset in
both the available and settled dicts and pays `price * volume` from both
cash quantities; a sell leg applies the exact inverse. -/
def update_holdings (price volume : ℤ) (b : Bool) (asset : String) (s : TraderState) :
    TraderState :=
  if b then
    { s with
      availableAssetsDict := update_subproperty s.availableAssetsDict asset (volume : ℚ),
      settledAssetsDict := update_subproperty s.settledAssetsDict asset (volume : ℚ),
      availableCash := s.availableCash - (price : ℚ) * (volume : ℚ),
      settledCash := s.settledCash - (price : ℚ) * (volume : ℚ) }
  else
    { s with
      availableAssetsDict := update_subproperty s.availableAssetsDict asset (-(volume : ℚ)),
      settledAssetsDict := update_subproperty s.settledAssetsDict asset (-(volume : ℚ)),
      availableCash := s.availableCash + (price : ℚ) * (volume : ℚ),
      settledCash := s.settledCash + (price : ℚ) * (volume : ℚ) }

/-- One iteration of the making-orders loop of `_handle_confirm_trade`:
apply the maker-side holdings update when the making order is the
viewer's, apply the taker-side holdings update (maker's price and traded
volume, taker's side and asset) when the taking order is the viewer's,
then unconditionally remove the making order from its book. -/
def trade_step (tk : Order) (st : TraderState) (mo : Order) : TraderState :=
  let st1 := if mo.pcode = st.pcode then
    update_holdings mo.price mo.traded_volume mo.is_bid mo.asset_name st else st
  let st2 := if tk.pcode = st1.pcode then
    update_holdings mo.price mo.traded_volume tk.is_bid tk.asset_name st1 else st1
  remove_order mo st2

/-- `_handle_confirm_trade(msg)`: process every making order in sequence,
then add the new trade object to the trade ledger.

The source's insertion loop is
`let i; for (; i < this.trades.length; i++) ... this.splice('trades', i, 0, trade)`.
`let i;` leaves `i` undefined, `undefined < this.trades.length` is false
for every length, so the scan body never executes and `i` stays undefined;
`splice` then coerces the undefined start index to 0.  The net effect, and
the faithful translation, is that the new trade is always prepended to the
trades list. -/
def handle_confirm_trade (msg : Trade) (s : TraderState) : TraderState :=
  let s1 := msg.making_orders.foldl (trade_step msg.taking_order) s
  let trade : Trade :=
    { timestamp := msg.timestamp, asset_name := msg.asset_name,
      taking_order := msg.taking_order, making_orders := msg.making_orders }
  { s1 with trades := trade :: s1.trades }

/-- `_handle_confirm_cancel(msg)`: remove the canceled order from its book
(warning, not error, when absent), then — whether or not the removal found
the order — if the order is the viewer's own, release the reservation made
at entry: `availableCash += price * volume` for a bid,
`availableAssetsDict[asset_name] += volume` for an ask. -/
def handle_confirm_cancel (o : Order) (s : TraderState) : TraderState :=
  let s1 := remove_order o s
  if o.pcode = s1.pcode then
    if o.is_bid then
      { s1 with availableCash := s1.availableCash + (o.price : ℚ) * (o.volume : ℚ) }
    else
      { s1 with availableAssetsDict :=
          update_subproperty s1.availableAssetsDict o.asset_name (o.volume : ℚ) }
  else s1

/-- An `error` payload. -/
structure ErrMsg where
  pcode : String
  message : String
deriving DecidableEq, Repr

/-- `_handle_error(msg)`: re-emit the error locally when addressed to the
viewer; the replicated state is never changed. -/
def handle_error (_e : ErrMsg) (s : TraderState) : TraderState := s

/-- An inbound message envelope.  The four recognized types carry their
payloads; `other` stands for an envelope whose `type` string is anything
else. -/
inductive Msg where
  | confirm_enter (o : Order)
  | confirm_trade (t : Trade)
  | confirm_cancel (o : Order)
  | error (e : ErrMsg)
  | other (ty : String)
deriving DecidableEq, Repr

/-- The `type` string of an inbound message envelope. -/
def Msg.msgType : Msg → String
  | .confirm_enter _ => "confirm_enter"
  | .confirm_trade _ => "confirm_trade"
  | .confirm_cancel _ => "confirm_cancel"
  | .error _ => "error"
  | .other ty => ty

/-- The recognized inbound message types (the keys of `message_handlers`). -/
def recognized_types : List String :=
  ["confirm_enter", "confirm_trade", "confirm_cancel", "error"]

/-- `_on_message(event)`: look the message type up in `message_handlers`
and dispatch; a missing handler throws
`error: invalid message type: ...` before any state is touched. -/
def on_message (m : Msg) (s : TraderState) : Except String TraderState :=
  match m with
  | .confirm_enter o => .ok (handle_confirm_enter o s)
  | .confirm_trade t => .ok (handle_confirm_trade t s)
  | .confirm_cancel o => .ok (handle_confirm_cancel o s)
  | .error e => .ok (handle_error e s)
  | .other ty => .error ("error: invalid message type: " ++ ty)

/-- The state after one inbound event: the handler's result on success,
the unchanged state when the dispatcher threw. -/
def step (m : Msg) (s : TraderState) : TraderState :=
  match on_message m s with
  | .ok t => t
  | .error _ => s

/-- The state after a sequence of inbound events, processed in arrival
order. -/
def run (s : TraderState) (msgs : List Msg) : TraderState :=
  msgs.foldl (fun st m => step m st) s

/-! ## Derived notions used by the statements -/

/-- The actual resting order of the ask book: ascending price, ties broken
by descending timestamp (latest first).  `askLE a b` says `a` may precede
`b`. -/
def askLE (a b : Order) : Prop :=
  a.price < b.price ∨ (a.price = b.price ∧ b.timestamp ≤ a.timestamp)

/-- The resting order of the bid book: descending price, ties broken by
ascending timestamp (earliest first).  `bidLE a b` says `a` may precede
`b`. -/
def bidLE (a b : Order) : Prop :=
  b.price < a.price ∨ (a.price = b.price ∧ a.timestamp ≤ b.timestamp)

/-- The ask-book order claimed by the spec: ascending price, ties broken by
ascending timestamp (earliest first). -/
def askLE_claimed (a b : Order) : Prop :=
  a.price < b.price ∨ (a.price = b.price ∧ a.timestamp ≤ b.timestamp)

/-- Modelled from the spec: the trade-ledger insertion position it
describes — "scan forward for first `timestamp` greater than the new
trade's, insert before it". -/
def insert_trade_claimed (l : List Trade) (t : Trade) : List Trade :=
  match l with
  | [] => [t]
  | x :: rest => if t.timestamp < x.timestamp then t :: x :: rest else x :: insert_trade_claimed rest t

/-- The four holdings quantities on their own. -/
structure Holdings where
  availableAssets : String → ℚ
  settledAssets : String → ℚ
  availableCash : ℚ
  settledCash : ℚ

/-- The holdings part of a replicator state. -/
def holdingsOf (s : TraderState) : Holdings :=
  { availableAssets := s.availableAssetsDict, settledAssets := s.settledAssetsDict,
    availableCash := s.availableCash, settledCash := s.settledCash }

/-- Modelled from the spec: `on_trade_leg(price, traded_volume, is_bid,
asset_name)` — a buy leg gains the traded volume of the asset in both
asset dicts and pays `price * traded_volume` from both cash quantities;
a sell leg is the symmetric inverse. -/
def on_trade_leg (price traded_volume : ℤ) (b : Bool) (asset : String) (h : Holdings) :
    Holdings :=
  if b then
    { availableAssets := update_subproperty h.availableAssets asset (traded_volume : ℚ),
      settledAssets := update_subproperty h.settledAssets asset (traded_volume : ℚ),
      availableCash := h.availableCash - (price : ℚ) * (traded_volume : ℚ),
      settledCash := h.settledCash - (price : ℚ) * (traded_volume : ℚ) }
  else
    { availableAssets := update_subproperty h.availableAssets asset (-(traded_volume : ℚ)),
      settledAssets := update_subproperty h.settledAssets asset (-(traded_volume : ℚ)),
      availableCash := h.availableCash + (price : ℚ) * (traded_volume : ℚ),
      settledCash := h.settledCash + (price : ℚ) * (traded_volume : ℚ) }

/-- All order ids currently resident across both books. -/
def ids (s : TraderState) : List ℤ :=
  s.bids.map (·.order_id) ++ s.asks.map (·.order_id)

/-- The `confirm_enter` precondition: the entered id is not already
resident in either book.  Other event kinds have no precondition. -/
def enter_ok (m : Msg) (s : TraderState) : Bool :=
  match m with
  | .confirm_enter o => decide (o.order_id ∉ ids s)
  | _ => true

/-- Every `confirm_enter` of the sequence satisfies its precondition at
the state it is processed in. -/
def valid_msgs (s : TraderState) : List Msg → Bool
  | [] => true
  | m :: rest => enter_ok m s && valid_msgs (step m s) rest

/-! ## Concrete sample data for witnesses and counterexamples -/

/-- A sample order used by the concrete scenarios. -/
def mkOrder (ts : ℚ) (p v : ℤ) (b : Bool) (pc : String) (tv oid : ℤ) (a : String) : Order :=
  { timestamp := ts, price := p, volume := v, is_bid := b, pcode := pc,
    traded_volume := tv, order_id := oid, asset_name := a }

/-- An initial replicator state for the viewer `"me"`: empty books and
ledger, 1000 cash and 100 of every asset, all settled and available. -/
def st0 : TraderState :=
  { pcode := "me", bids := [], asks := [], trades := [],
    settledAssetsDict := fun _ => 100, availableAssetsDict := fun _ => 100,
    settledCash := 1000, availableCash := 1000 }

/-- Scenario bid A: price 10, timestamp 1.0. -/
def bidA : Order := mkOrder 1 10 1 true "p1" 0 1 "A"
/-- Scenario bid B: price 12, timestamp 2.0. -/
def bidB : Order := mkOrder 2 12 1 true "p1" 0 2 "A"
/-- Scenario bid C: price 10, timestamp 0.5. -/
def bidC : Order := mkOrder (1/2) 10 1 true "p1" 0 3 "A"

/-- An ask at price 5, timestamp 1.0. -/
def askE : Order := mkOrder 1 5 1 false "p1" 0 4 "A"
/-- An ask at the same price 5, timestamp 2.0. -/
def askL : Order := mkOrder 2 5 1 false "p1" 0 5 "A"

/-- A trade already in the ledger, with timestamp 1.0. -/
def trEarly : Trade :=
  { timestamp := 1, asset_name := "A", taking_order := bidA, making_orders := [] }

/-- An incoming `confirm_trade` payload with timestamp 2.0 and no making
orders. -/
def trLate : Trade :=
  { timestamp := 2, asset_name := "A", taking_order := bidA, making_orders := [] }

/-- A state whose trade ledger already holds the timestamp-1.0 trade. -/
def stateC1 : TraderState := { st0 with trades := [trEarly] }

/-- A viewer-owned bid: price 5, volume 10, order id 99. -/
def ownBid : Order := mkOrder 1 5 10 true "me" 0 99 "A"

/-- A bid owned by another participant: price 5, volume 10, order id 98. -/
def otherBid : Order := mkOrder 1 5 10 true "px" 0 98 "A"

/-- A viewer-owned ask: price 4, volume 6, order id 97. -/
def ownAsk : Order := mkOrder 1 4 6 false "me" 0 97 "A"

/-- A taking order owned by the viewer. -/
def tkOwn : Order := mkOrder 3 7 2 true "me" 2 50 "A"

/-- A making order owned by another participant; its traded volume 2 is
strictly less than its resting volume 5. -/
def makerLowFill : Order := mkOrder 1 6 5 false "px" 2 51 "A"

/-- A trade taken by the viewer against `makerLowFill`. -/
def trTaken : Trade :=
  { timestamp := 3, asset_name := "A", taking_order := tkOwn, making_orders := [makerLowFill] }

/-- A state in which `makerLowFill` is resting in the ask book. -/
def stateC8 : TraderState := { st0 with asks := [makerLowFill] }

/-- A trade between two other participants consuming `makerLowFill`. -/
def trOthers : Trade :=
  { timestamp := 4, asset_name := "A", taking_order := mkOrder 4 6 2 true "py" 2 52 "A",
    making_orders := [makerLowFill] }

/-- A sample event sequence: enter a bid, enter an ask, cancel the bid. -/
def msgsC9 : List Msg :=
  [.confirm_enter bidA, .confirm_enter askE, .confirm_cancel bidA]

/-! ## Helper lemmas -/

theorem compare_orders_neg_iff (b o : Order) : compare_orders b o < 0 ↔ ¬ bidLE b o := by
  unfold compare_orders bidLE
  rcases lt_trichotomy b.price o.price with h | h | h
  · simp only [if_neg (ne_of_lt h)]
    constructor
    · intro _ hc
      rcases hc with hc | hc
      · exact absurd hc (not_lt.mpr h.le)
      · exact absurd hc.1 (ne_of_lt h)
    · intro _
      have : ((b.price : ℚ)) < (o.price : ℚ) := by exact_mod_cast h
      linarith
  · simp only [if_pos h]
    constructor
    · intro hlt hc
      rcases hc with hc | hc
      · exact absurd h (ne_of_gt hc)
      · have : o.timestamp < b.timestamp := by linarith
        exact absurd hc.2 (not_le.mpr this)
    · intro hc
      by_contra hge
      push_neg at hge
      have hts : b.timestamp ≤ o.timestamp := by linarith
      exact hc (Or.inr ⟨h, hts⟩)
  · simp only [if_neg (ne_of_gt h)]
    constructor
    · intro hlt
      have : ((o.price : ℚ)) < (b.price : ℚ) := by exact_mod_cast h
      intro _
      linarith
    · intro hc
      exact absurd (Or.inl h) hc
  
theorem compare_orders_pos_iff (a o : Order) : 0 < compare_orders a o ↔ ¬ askLE a o := by
  unfold compare_orders askLE
  rcases lt_trichotomy a.price o.price with h | h | h
  · simp only [if_neg (ne_of_lt h)]
    constructor
    · intro hlt
      have : ((a.price : ℚ)) < (o.price : ℚ) := by exact_mod_cast h
      intro _
      linarith
    · intro hc
      exact absurd (Or.inl h) hc
  · simp only [if_pos h]
    constructor
    · intro hlt hc
      rcases hc with hc | hc
      · exact absurd h (ne_of_lt hc)
      · have : a.timestamp < o.timestamp := by linarith
        exact absurd hc.2 (not_le.mpr this)
    · intro hc
      by_contra hle
      push_neg at hle
      have hts : o.timestamp ≤ a.timestamp := by linarith
      exact hc (Or.inr ⟨h, hts⟩)
  · simp only [if_neg (ne_of_gt h)]
    constructor
    · intro _ hc
      rcases hc with hc | hc
      · exact absurd hc (not_lt.mpr h.le)
      · exact absurd hc.1 (ne_of_gt h)
    · intro _
      have : ((o.price : ℚ)) < (a.price : ℚ) := by exact_mod_cast h
      linarith

theorem bidLE_total (a b : Order) : bidLE a b ∨ bidLE b a := by
  unfold bidLE
  rcases lt_trichotomy a.price b.price with h | h | h
  · exact Or.inr (Or.inl h)
  · rcases le_total a.timestamp b.timestamp with ht | ht
    · exact Or.inl (Or.inr ⟨h, ht⟩)
    · exact Or.inr (Or.inr ⟨h.symm, ht⟩)
  · exact Or.inl (Or.inl h)

theorem askLE_total (a b : Order) : askLE a b ∨ askLE b a := by
  unfold askLE
  rcases lt_trichotomy a.price b.price with h | h | h
  · exact Or.inl (Or.inl h)
  · rcases le_total a.timestamp b.timestamp with ht | ht
    · exact Or.inr (Or.inr ⟨h.symm, ht⟩)
    · exact Or.inl (Or.inr ⟨h, ht⟩)
  · exact Or.inr (Or.inl h)

theorem bidLE_trans {a b c : Order} (h1 : bidLE a b) (h2 : bidLE b c) : bidLE a c := by
  unfold bidLE at h1 h2 ⊢
  rcases h1 with h1 | h1 <;> rcases h2 with h2 | h2
  · exact Or.inl (h2.trans h1)
  · exact Or.inl (h2.1 ▸ h1)
  · exact Or.inl (h2.trans_eq h1.1.symm)
  · exact Or.inr ⟨h1.1.trans h2.1, h1.2.trans h2.2⟩

theorem askLE_trans {a b c : Order} (h1 : askLE a b) (h2 : askLE b c) : askLE a c := by
  unfold askLE at h1 h2 ⊢
  rcases h1 with h1 | h1 <;> rcases h2 with h2 | h2
  · exact Or.inl (h1.trans h2)
  · exact Or.inl (h2.1 ▸ h1)
  · exact Or.inl (h1.1 ▸ h2)
  · exact Or.inr ⟨h1.1.trans h2.1, h2.2.trans h1.2⟩

theorem insert_bid_list_perm (l : List Order) (o : Order) :
    List.Perm (insert_bid_list l o) (o :: l) := by
  induction l with
  | nil => exact List.Perm.refl _
  | cons b rest ih =>
    unfold insert_bid_list
    by_cases h : compare_orders b o < 0
    · simp only [if_pos h]
      exact List.Perm.refl _
    · simp only [if_neg h]
      exact (ih.cons b).trans (List.Perm.swap o b rest)

theorem insert_ask_list_perm (l : List Order) (o : Order) :
    List.Perm (insert_ask_list l o) (o :: l) := by
  induction l with
  | nil => exact List.Perm.refl _
  | cons a rest ih =>
    unfold insert_ask_list
    by_cases h : compare_orders a o > 0
    · simp only [if_pos h]
      exact List.Perm.refl _
    · simp only [if_neg h]
      exact (ih.cons a).trans (List.Perm.swap o a rest)

theorem insert_bid_list_pairwise {l : List Order} (o : Order)
    (h : l.Pairwise bidLE) : (insert_bid_list l o).Pairwise bidLE := by
  induction l with
  | nil => simp [insert_bid_list]
  | cons b rest ih =>
    rcases List.pairwise_cons.mp h with ⟨hb, hrest⟩
    unfold insert_bid_list
    by_cases hc : compare_orders b o < 0
    · simp only [if_pos hc]
      have hob : bidLE o b := by
        rcases bidLE_total o b with h1 | h1
        · exact h1
        · exact absurd h1 ((compare_orders_neg_iff b o).mp hc)
      refine List.pairwise_cons.mpr ⟨?_, h⟩
      intro x hx
      rcases List.mem_cons.mp hx with rfl | hx
      · exact hob
      · exact bidLE_trans hob (hb x hx)
    · simp only [if_neg hc]
      refine List.pairwise_cons.mpr ⟨?_, ih hrest⟩
      intro x hx
      rcases List.mem_cons.mp ((insert_bid_list_perm rest o).mem_iff.mp hx) with rfl | hx
      · exact not_not.mp (fun hn => hc ((compare_orders_neg_iff b x).mpr hn))
      · exact hb x hx

theorem insert_ask_list_pairwise {l : List Order} (o : Order)
    (h : l.Pairwise askLE) : (insert_ask_list l o).Pairwise askLE := by
  induction l with
  | nil => simp [insert_ask_list]
  | cons a rest ih =>
    rcases List.pairwise_cons.mp h with ⟨ha, hrest⟩
    unfold insert_ask_list
    by_cases hc : compare_orders a o > 0
    · simp only [if_pos hc]
      have hoa : askLE o a := by
        rcases askLE_total o a with h1 | h1
        · exact h1
        · exact absurd h1 ((compare_orders_pos_iff a o).mp hc)
      refine List.pairwise_cons.mpr ⟨?_, h⟩
      intro x hx
      rcases List.mem_cons.mp hx with rfl | hx
      · exact hoa
      · exact askLE_trans hoa (ha x hx)
    · simp only [if_neg hc]
      refine List.pairwise_cons.mpr ⟨?_, ih hrest⟩
      intro x hx
      rcases List.mem_cons.mp ((insert_ask_list_perm rest o).mem_iff.mp hx) with rfl | hx
      · exact not_not.mp (fun hn => hc ((compare_orders_pos_iff a x).mpr hn))
      · exact ha x hx

theorem remove_order_list_sublist (l : List Order) (oid : ℤ) :
    (remove_order_list l oid).Sublist l := by
  induction l with
  | nil => simp [remove_order_list]
  | cons x rest ih =>
    unfold remove_order_list
    by_cases h : x.order_id = oid
    · simp only [if_pos h]
      exact (List.sublist_cons_self x rest)
    · simp only [if_neg h]
      exact ih.cons₂ x

theorem remove_order_list_eq_of_absent {l : List Order} {oid : ℤ}
    (h : ∀ x ∈ l, x.order_id ≠ oid) : remove_order_list l oid = l := by
  induction l with
  | nil => rfl
  | cons x rest ih =>
    unfold remove_order_list
    rw [if_neg (h x (List.mem_cons_self x rest)), ih (fun y hy => h y (List.mem_cons_of_mem x hy))]

theorem countP_remove_order_list {l : List Order} {oid : ℤ}
    (h : l.countP (fun x => x.order_id == oid) ≤ 1) :
    (remove_order_list l oid).countP (fun x => x.order_id == oid) = 0 := by
  induction l with
  | nil => rfl
  | cons x rest ih =>
    unfold remove_order_list
    by_cases hx : x.order_id = oid
    · simp only [if_pos hx]
      rw [List.countP_cons_of_pos _ _ (by simpa using hx)] at h
      omega
    · simp only [if_neg hx]
      rw [List.countP_cons_of_neg _ _ (by simpa using hx)] at h
      rw [List.countP_cons_of_neg _ _ (by simpa using hx)]
      exact ih h

theorem bids_update_holdings (p v : ℤ) (b : Bool) (a : String) (s : TraderState) :
    (update_holdings p v b a s).bids = s.bids := by
  cases b <;> rfl

theorem asks_update_holdings (p v : ℤ) (b : Bool) (a : String) (s : TraderState) :
    (update_holdings p v b a s).asks = s.asks := by
  cases b <;> rfl

theorem pcode_update_holdings (p v : ℤ) (b : Bool) (a : String) (s : TraderState) :
    (update_holdings p v b a s).pcode = s.pcode := by
  cases b <;> rfl

theorem trades_update_holdings (p v : ℤ) (b : Bool) (a : String) (s : TraderState) :
    (update_holdings p v b a s).trades = s.trades := by
  cases b <;> rfl

theorem pcode_remove_order (o : Order) (s : TraderState) :
    (remove_order o s).pcode = s.pcode := by
  unfold remove_order
  split <;> rfl

theorem trades_remove_order (o : Order) (s : TraderState) :
    (remove_order o s).trades = s.trades := by
  unfold remove_order
  split <;> rfl

theorem holdingsOf_remove_order (o : Order) (s : TraderState) :
    holdingsOf (remove_order o s) = holdingsOf s := by
  unfold remove_order
  split <;> rfl

theorem holdingsOf_update_holdings (p v : ℤ) (b : Bool) (a : String) (s : TraderState) :
    holdingsOf (update_holdings p v b a s) = on_trade_leg p v b a (holdingsOf s) := by
  cases b <;> rfl

theorem bids_remove_order (o : Order) (s : TraderState) :
    (remove_order o s).bids = if o.is_bid then remove_order_list s.bids o.order_id else s.bids := by
  unfold remove_order
  split <;> simp_all

theorem asks_remove_order (o : Order) (s : TraderState) :
    (remove_order o s).asks = if o.is_bid then s.asks else remove_order_list s.asks o.order_id := by
  unfold remove_order
  split <;> simp_all

theorem pcode_trade_step (tk : Order) (st : TraderState) (mo : Order) :
    (trade_step tk st mo).pcode = st.pcode := by
  unfold trade_step
  rw [pcode_remove_order]
  split <;> split <;> simp [pcode_update_holdings]

theorem bids_trade_step_sublist (tk : Order) (st : TraderState) (mo : Order) :
    (trade_step tk st mo).bids.Sublist st.bids := by
  unfold trade_step
  rw [bids_remove_order]
  split <;> split <;> split <;>
    simp [bids_update_holdings, remove_order_list_sublist, List.Sublist.refl]

theorem asks_trade_step_sublist (tk : Order) (st : TraderState) (mo : Order) :
    (trade_step tk st mo).asks.Sublist st.asks := by
  unfold trade_step
  rw [asks_remove_order]
  split <;> split <;> split <;>
    simp [asks_update_holdings, remove_order_list_sublist, List.Sublist.refl]

theorem bids_trade_fold_sublist (tk : Order) :
    ∀ (l : List Order) (st : TraderState),
      (l.foldl (trade_step tk) st).bids.Sublist st.bids := by
  intro l
  induction l with
  | nil => intro st; exact List.Sublist.refl _
  | cons mo rest ih =>
    intro st
    exact (ih (trade_step tk st mo)).trans (bids_trade_step_sublist tk st mo)

theorem asks_trade_fold_sublist (tk : Order) :
    ∀ (l : List Order) (st : TraderState),
      (l.foldl (trade_step tk) st).asks.Sublist st.asks := by
  intro l
  induction l with
  | nil => intro st; exact List.Sublist.refl _
  | cons mo rest ih =>
    intro st
    exact (ih (trade_step tk st mo)).trans (asks_trade_step_sublist tk st mo)

theorem bids_insert_bid (o : Order) (s : TraderState) :
    (insert_bid o s).bids = insert_bid_list s.bids o := by
  unfold insert_bid
  by_cases h : o.pcode = s.pcode <;> simp [h]

theorem asks_insert_bid (o : Order) (s : TraderState) :
    (insert_bid o s).asks = s.asks := by
  unfold insert_bid
  by_cases h : o.pcode = s.pcode <;> simp [h]

theorem asks_insert_ask (o : Order) (s : TraderState) :
    (insert_ask o s).asks = insert_ask_list s.asks o := by
  unfold insert_ask
  by_cases h : o.pcode = s.pcode <;> simp [h]

theorem bids_insert_ask (o : Order) (s : TraderState) :
    (insert_ask o s).bids = s.bids := by
  unfold insert_ask
  by_cases h : o.pcode = s.pcode <;> simp [h]

theorem pcode_insert_bid (o : Order) (s : TraderState) :
    (insert_bid o s).pcode = s.pcode := by
  unfold insert_bid
  by_cases h : o.pcode = s.pcode <;> simp [h]

theorem pcode_insert_ask (o : Order) (s : TraderState) :
    (insert_ask o s).pcode = s.pcode := by
  unfold insert_ask
  by_cases h : o.pcode = s.pcode <;> simp [h]

theorem run_cons (s : TraderState) (m : Msg) (msgs : List Msg) :
    run s (m :: msgs) = run (step m s) msgs := rfl

theorem step_confirm_enter (o : Order) (s : TraderState) :
    step (.confirm_enter o) s = handle_confirm_enter o s := rfl

theorem bids_handle_confirm_trade (msg : Trade) (s : TraderState) :
    (handle_confirm_trade msg s).bids =
      (msg.making_orders.foldl (trade_step msg.taking_order) s).bids := rfl

theorem asks_handle_confirm_trade (msg : Trade) (s : TraderState) :
    (handle_confirm_trade msg s).asks =
      (msg.making_orders.foldl (trade_step msg.taking_order) s).asks := rfl

theorem run_enter_bids_pairwise :
    ∀ (l : List Order) (s : TraderState), (∀ o ∈ l, o.is_bid = true) →
      s.bids.Pairwise bidLE → ((run s (l.map .confirm_enter)).bids).Pairwise bidLE := by
  intro l
  induction l with
  | nil => intro s _ hs; exact hs
  | cons o rest ih =>
    intro s hl hs
    rw [List.map_cons, run_cons, step_confirm_enter]
    have hb : o.is_bid = true := hl o (List.mem_cons_self o rest)
    have henter : handle_confirm_enter o s = insert_bid o s := by
      unfold handle_confirm_enter
      rw [hb]
      simp
    rw [henter]
    refine ih (insert_bid o s) (fun x hx => hl x (List.mem_cons_of_mem o hx)) ?_
    rw [bids_insert_bid]
    exact insert_bid_list_pairwise o hs

theorem run_enter_asks_pairwise :
    ∀ (l : List Order) (s : TraderState), (∀ o ∈ l, o.is_bid = false) →
      s.asks.Pairwise askLE → ((run s (l.map .confirm_enter)).asks).Pairwise askLE := by
  intro l
  induction l with
  | nil => intro s _ hs; exact hs
  | cons o rest ih =>
    intro s hl hs
    rw [List.map_cons, run_cons, step_confirm_enter]
    have hb : o.is_bid = false := hl o (List.mem_cons_self o rest)
    have henter : handle_confirm_enter o s = insert_ask o s := by
      unfold handle_confirm_enter
      rw [hb]
      simp
    rw [henter]
    refine ih (insert_ask o s) (fun x hx => hl x (List.mem_cons_of_mem o hx)) ?_
    rw [asks_insert_ask]
    exact insert_ask_list_pairwise o hs

theorem remove_order_eq_of_absent {s : TraderState} {o : Order}
    (h : ∀ x ∈ (if o.is_bid then s.bids else s.asks), x.order_id ≠ o.order_id) :
    remove_order o s = s := by
  unfold remove_order
  by_cases hb : o.is_bid
  · rw [if_pos hb, remove_order_list_eq_of_absent (by simpa [hb] using h)]
  · rw [if_neg hb, remove_order_list_eq_of_absent (by simpa [hb] using h)]

/-- C1: the `confirm_trade` handler does not keep the trade ledger sorted:
from a ledger holding one trade with timestamp 1.0, handling a trade with
timestamp 2.0 prepends it (the loop index is left undefined, so the scan
never runs and the splice start coerces to 0), yielding timestamps
`[2, 1]` — not sorted ascending — whereas the claimed insert-before-first-
greater-timestamp position would yield `[1, 2]`. -/
theorem trade_ledger_prepend_not_sorted :
    ((handle_confirm_trade trLate stateC1).trades.map (·.timestamp) = [2, 1]) ∧
    ¬ ((handle_confirm_trade trLate stateC1).trades.map (·.timestamp)).Sorted (· ≤ ·) ∧
    ((insert_trade_claimed stateC1.trades trLate).map (·.timestamp) = [1, 2]) := by
  decide

/-- C2 counterexample: entering two asks with equal price 5, the first
with timestamp 1.0 and the second with timestamp 2.0, leaves the ask list
in descending timestamp order `[2, 1]`; the claimed ascending-timestamp
tie-break (`askLE_claimed`) is violated. -/
theorem ask_tie_order_counterexample :
    (∀ o ∈ [askE, askL], o.is_bid = false) ∧
    ((run st0 ([askE, askL].map .confirm_enter)).asks.map (·.timestamp) = [2, 1]) ∧
    ¬ ((run st0 ([askE, askL].map .confirm_enter)).asks.Pairwise askLE_claimed) := by
  refine ⟨by decide, ?_, ?_⟩
  · simp [run, step, on_message, handle_confirm_enter, insert_ask, insert_ask_list,
      compare_orders, st0, askE, askL, mkOrder]
  · simp [run, step, on_message, handle_confirm_enter, insert_ask, insert_ask_list,
      compare_orders, st0, askE, askL, mkOrder, askLE_claimed]

/-- C2 (amended): for every sequence of `confirm_enter` events for ask
orders, after each insertion the asks list is sorted by ascending price,
and orders with equal price are ordered by descending timestamp (latest
first). -/
theorem ask_book_sorted (l : List Order) (s : TraderState)
    (h1 : ∀ o ∈ l, o.is_bid = false) (h2 : s.asks.Pairwise askLE) :
    ∀ n, ((run s ((l.take n).map .confirm_enter)).asks).Pairwise askLE := by
  intro n
  exact run_enter_asks_pairwise (l.take n) s
    (fun o ho => h1 o ((List.take_sublist n l).subset ho)) h2

theorem ask_book_sorted_witness :
    ((run st0 (([askE, askL].take 2).map .confirm_enter)).asks).Pairwise askLE :=
  ask_book_sorted [askE, askL] st0 (by decide) List.Pairwise.nil 2

/-- C3 counterexample: a `confirm_cancel` for a viewer-owned bid whose
`order_id` (99) is resident in neither book still mutates the holdings:
`availableCash` is credited with `price * volume`. -/
theorem stale_cancel_refund_counterexample :
    st0.bids = [] ∧ st0.asks = [] ∧
    (handle_confirm_cancel ownBid st0).availableCash ≠ st0.availableCash := by
  refine ⟨rfl, rfl, ?_⟩
  simp [handle_confirm_cancel, remove_order, remove_order_list, ownBid, mkOrder, st0]

/-- C3 (amended): a `confirm_cancel` whose `order_id` is not present in
the book selected by the order's `is_bid` flag leaves both order books,
the trades list, and the two settled holdings quantities unchanged and
produces only a non-fatal warning; `availableCash` and
`availableAssetsDict` are also unchanged provided the order does not
belong to the viewer — for a viewer-owned order the cancel refund is
still applied to them despite the order being absent. -/
theorem stale_cancel_books_unchanged (s : TraderState) (o : Order)
    (h : ∀ x ∈ (if o.is_bid then s.bids else s.asks), x.order_id ≠ o.order_id) :
    (handle_confirm_cancel o s).bids = s.bids ∧
    (handle_confirm_cancel o s).asks = s.asks ∧
    (handle_confirm_cancel o s).trades = s.trades ∧
    (handle_confirm_cancel o s).settledCash = s.settledCash ∧
    (handle_confirm_cancel o s).settledAssetsDict = s.settledAssetsDict ∧
    (o.pcode ≠ s.pcode →
      (handle_confirm_cancel o s).availableCash = s.availableCash ∧
      (handle_confirm_cancel o s).availableAssetsDict = s.availableAssetsDict) := by
  unfold handle_confirm_cancel
  rw [remove_order_eq_of_absent h]
  by_cases hp : o.pcode = s.pcode
  · by_cases hb : o.is_bid
    · simp [hp, hb]
    · simp [hp, hb]
  · simp [hp]

theorem stale_cancel_books_unchanged_witness :
    (handle_confirm_cancel otherBid st0).bids = st0.bids ∧
    (handle_confirm_cancel otherBid st0).asks = st0.asks ∧
    (handle_confirm_cancel otherBid st0).trades = st0.trades ∧
    (handle_confirm_cancel otherBid st0).settledCash = st0.settledCash ∧
    (handle_confirm_cancel otherBid st0).settledAssetsDict = st0.settledAssetsDict ∧
    (otherBid.pcode ≠ st0.pcode →
      (handle_confirm_cancel otherBid st0).availableCash = st0.availableCash ∧
      (handle_confirm_cancel otherBid st0).availableAssetsDict = st0.availableAssetsDict) :=
  stale_cancel_books_unchanged st0 otherBid (by decide)

/-- C4: for every sequence of `confirm_enter` events for bid orders, after
each insertion the bids list is sorted by descending price with equal
prices ordered by ascending timestamp (`bidLE`); in particular inserting
bid A(price 10, ts 1.0), then B(price 12, ts 2.0), then C(price 10,
ts 0.5) yields the book `[B, C, A]`. -/
theorem bid_book_sorted :
    (∀ (l : List Order) (s : TraderState), (∀ o ∈ l, o.is_bid = true) →
      s.bids.Pairwise bidLE →
      ∀ n, ((run s ((l.take n).map .confirm_enter)).bids).Pairwise bidLE) ∧
    (run st0 ([bidA, bidB, bidC].map .confirm_enter)).bids = [bidB, bidC, bidA] := by
  constructor
  · intro l s h1 h2 n
    exact run_enter_bids_pairwise (l.take n) s
      (fun o ho => h1 o ((List.take_sublist n l).subset ho)) h2
  · simp [run, step, on_message, handle_confirm_enter, insert_bid, insert_bid_list,
      compare_orders, st0, bidA, bidB, bidC, mkOrder]
    norm_num

theorem bid_book_sorted_witness :
    ((run st0 (([bidA, bidB, bidC].take 3).map .confirm_enter)).bids).Pairwise bidLE :=
  bid_book_sorted.1 [bidA, bidB, bidC] st0 (by decide) List.Pairwise.nil 3

/-- C5: entering and then canceling the same viewer-owned order, with no
intervening trade, restores `availableCash` and `availableAssetsDict`
exactly to their pre-entry values. -/
theorem enter_cancel_roundtrip (s : TraderState) (o : Order) (h : o.pcode = s.pcode) :
    (handle_confirm_cancel o (handle_confirm_enter o s)).availableCash = s.availableCash ∧
    (handle_confirm_cancel o (handle_confirm_enter o s)).availableAssetsDict =
      s.availableAssetsDict := by
  by_cases hb : o.is_bid
  · constructor
    · simp [handle_confirm_enter, hb, insert_bid, h, handle_confirm_cancel, remove_order]
    · simp [handle_confirm_enter, hb, insert_bid, h, handle_confirm_cancel, remove_order]
  · constructor
    · simp [handle_confirm_enter, hb, insert_ask, h, handle_confirm_cancel, remove_order]
    · funext k2
      by_cases hk : k2 = o.asset_name
      · simp [handle_confirm_enter, hb, insert_ask, h, handle_confirm_cancel, remove_order,
          update_subproperty, hk]
      · simp [handle_confirm_enter, hb, insert_ask, h, handle_confirm_cancel, remove_order,
          update_subproperty, hk]

theorem enter_cancel_roundtrip_witness :
    (handle_confirm_cancel ownBid (handle_confirm_enter ownBid st0)).availableCash =
      st0.availableCash ∧
    (handle_confirm_cancel ownBid (handle_confirm_enter ownBid st0)).availableAssetsDict =
      st0.availableAssetsDict :=
  enter_cancel_roundtrip st0 ownBid rfl

/-- C6: one trade leg applied to the viewer's holdings with price `p`,
volume `v`, `is_bid = true` and asset `a` adds exactly `v` to
`availableAssetsDict[a]` and `settledAssetsDict[a]` and subtracts exactly
`p * v` from `availableCash` and `settledCash`; with `is_bid = false` the
exact symmetric inverse deltas are applied; in particular `p = 10, v = 3`
on the buy side gives assets `+3` and cash `-30` in both available and
settled quantities. -/
theorem update_holdings_deltas :
    (∀ (s : TraderState) (p v : ℤ) (a : String),
      (update_holdings p v true a s).availableAssetsDict a = s.availableAssetsDict a + (v : ℚ) ∧
      (update_holdings p v true a s).settledAssetsDict a = s.settledAssetsDict a + (v : ℚ) ∧
      (update_holdings p v true a s).availableCash = s.availableCash - (p : ℚ) * (v : ℚ) ∧
      (update_holdings p v true a s).settledCash = s.settledCash - (p : ℚ) * (v : ℚ)) ∧
    (∀ (s : TraderState) (p v : ℤ) (a : String),
      (update_holdings p v false a s).availableAssetsDict a = s.availableAssetsDict a - (v : ℚ) ∧
      (update_holdings p v false a s).settledAssetsDict a = s.settledAssetsDict a - (v : ℚ) ∧
      (update_holdings p v false a s).availableCash = s.availableCash + (p : ℚ) * (v : ℚ) ∧
      (update_holdings p v false a s).settledCash = s.settledCash + (p : ℚ) * (v : ℚ)) ∧
    ((update_holdings 10 3 true "A" st0).availableAssetsDict "A" = 103 ∧
      (update_holdings 10 3 true "A" st0).settledAssetsDict "A" = 103 ∧
      (update_holdings 10 3 true "A" st0).availableCash = 970 ∧
      (update_holdings 10 3 true "A" st0).settledCash = 970) := by
  refine ⟨?_, ?_, ?_⟩
  · intro s p v a
    refine ⟨?_, ?_, rfl, rfl⟩ <;> simp [update_holdings, update_subproperty]
  · intro s p v a
    refine ⟨?_, ?_, rfl, rfl⟩ <;> simp [update_holdings, update_subproperty, sub_eq_add_neg]
  · refine ⟨?_, ?_, ?_, ?_⟩ <;> norm_num [update_holdings, update_subproperty, st0]

/-- C10: an inbound message whose type is not one of `confirm_enter`,
`confirm_trade`, `confirm_cancel` or `error` makes the dispatcher throw
`error: invalid message type: ...`, and processing of that event leaves
the state — books, trades and all holdings — unchanged. -/
theorem unknown_type_rejected (m : Msg) (s : TraderState)
    (h : m.msgType ∉ recognized_types) :
    on_message m s = .error ("error: invalid message type: " ++ m.msgType) ∧
    step m s = s := by
  cases m <;> simp [Msg.msgType, recognized_types] at h ⊢
  exact ⟨rfl, rfl⟩

theorem unknown_type_rejected_witness :
    on_message (.other "unknown_type") st0 =
      .error ("error: invalid message type: " ++ (Msg.other "unknown_type").msgType) ∧
    step (.other "unknown_type") st0 = st0 :=
  unknown_type_rejected (.other "unknown_type") st0 (by decide)

theorem holdings_trade_fold (tk : Order) (P : String) (h : tk.pcode = P) :
    ∀ (l : List Order) (st : TraderState), st.pcode = P →
      holdingsOf (l.foldl (trade_step tk) st) =
        l.foldl
          (fun hd mo =>
            on_trade_leg mo.price mo.traded_volume tk.is_bid tk.asset_name
              (if mo.pcode = P then
                on_trade_leg mo.price mo.traded_volume mo.is_bid mo.asset_name hd
              else hd))
          (holdingsOf st) := by
  intro l
  induction l with
  | nil => intro st _; rfl
  | cons mo rest ih =>
    intro st hst
    rw [List.foldl_cons, List.foldl_cons]
    have hstep : holdingsOf (trade_step tk st mo) =
        on_trade_leg mo.price mo.traded_volume tk.is_bid tk.asset_name
          (if mo.pcode = P then
            on_trade_leg mo.price mo.traded_volume mo.is_bid mo.asset_name (holdingsOf st)
          else holdingsOf st) := by
      have htk : tk.pcode = st.pcode := h.trans hst.symm
      unfold trade_step
      by_cases hmo : mo.pcode = st.pcode
      · have hmoP : mo.pcode = P := hmo.trans hst
        simp only [hmo, hmoP, hst, htk, pcode_update_holdings, eq_self_iff_true, if_true,
          holdingsOf_remove_order, holdingsOf_update_holdings]
      · have hmoP : ¬ mo.pcode = P := fun hc => hmo (hc.trans hst.symm)
        simp only [if_neg hmo, if_neg hmoP, htk, pcode_update_holdings, eq_self_iff_true,
          if_true, holdingsOf_remove_order, holdingsOf_update_holdings]
    rw [ih (trade_step tk st mo) (by rw [pcode_trade_step, hst]), hstep]

/-- C7: when the viewer owns the taking order of a `confirm_trade`, the
holdings update runs once per making order, each run using that maker's
price and traded volume together with the taker's side and asset; when
the viewer also owns the making order of the same leg, the maker update
and the taker update are both applied in that iteration. -/
theorem trade_taker_leg_updates (s : TraderState) (msg : Trade)
    (h : msg.taking_order.pcode = s.pcode) :
    holdingsOf (handle_confirm_trade msg s) =
      msg.making_orders.foldl
        (fun hd mo =>
          on_trade_leg mo.price mo.traded_volume msg.taking_order.is_bid
            msg.taking_order.asset_name
            (if mo.pcode = s.pcode then
              on_trade_leg mo.price mo.traded_volume mo.is_bid mo.asset_name hd
            else hd))
        (holdingsOf s) := by
  have h0 : holdingsOf (handle_confirm_trade msg s) =
      holdingsOf (msg.making_orders.foldl (trade_step msg.taking_order) s) := rfl
  rw [h0, holdings_trade_fold msg.taking_order s.pcode h msg.making_orders s rfl]

theorem trade_taker_leg_updates_witness :
    holdingsOf (handle_confirm_trade trTaken st0) =
      trTaken.making_orders.foldl
        (fun hd mo =>
          on_trade_leg mo.price mo.traded_volume trTaken.taking_order.is_bid
            trTaken.taking_order.asset_name
            (if mo.pcode = st0.pcode then
              on_trade_leg mo.price mo.traded_volume mo.is_bid mo.asset_name hd
            else hd))
        (holdingsOf st0) :=
  trade_taker_leg_updates st0 trTaken rfl

theorem bids_trade_step (tk : Order) (st : TraderState) (mo : Order) :
    (trade_step tk st mo).bids =
      if mo.is_bid then remove_order_list st.bids mo.order_id else st.bids := by
  unfold trade_step
  rw [bids_remove_order]
  split_ifs <;> simp [bids_update_holdings]

theorem asks_trade_step (tk : Order) (st : TraderState) (mo : Order) :
    (trade_step tk st mo).asks =
      if mo.is_bid then st.asks else remove_order_list st.asks mo.order_id := by
  unfold trade_step
  rw [asks_remove_order]
  split_ifs <;> simp [asks_update_holdings]

theorem trade_fold_removes (tk : Order) :
    ∀ (l : List Order) (st : TraderState),
      (∀ mo ∈ l, ((if mo.is_bid then st.bids else st.asks).countP
        (fun x => x.order_id == mo.order_id)) ≤ 1) →
      ∀ mo ∈ l,
        ((if mo.is_bid then (l.foldl (trade_step tk) st).bids
          else (l.foldl (trade_step tk) st).asks).countP
          (fun x => x.order_id == mo.order_id)) = 0 := by
  intro l
  induction l with
  | nil => intro st _ mo hmo; exact absurd hmo (List.not_mem_nil mo)
  | cons m0 rest ih =>
    intro st h mo hmo
    rw [List.foldl_cons]
    rcases List.mem_cons.mp hmo with rfl | hmo'
    · have h0 : ((if mo.is_bid then (trade_step tk st mo).bids
          else (trade_step tk st mo).asks).countP
          (fun x => x.order_id == mo.order_id)) = 0 := by
        by_cases hb : mo.is_bid
        · rw [if_pos hb, bids_trade_step, if_pos hb]
          exact countP_remove_order_list (by simpa [hb] using h mo (List.mem_cons_self mo rest))
        · rw [if_neg hb, asks_trade_step, if_neg hb]
          exact countP_remove_order_list (by simpa [hb] using h mo (List.mem_cons_self mo rest))
      by_cases hb : mo.is_bid
      · rw [if_pos hb]
        rw [if_pos hb] at h0
        have hle := (bids_trade_fold_sublist tk rest (trade_step tk st mo)).countP_le
          (fun x => x.order_id == mo.order_id)
        omega
      · rw [if_neg hb]
        rw [if_neg hb] at h0
        have hle := (asks_trade_fold_sublist tk rest (trade_step tk st mo)).countP_le
          (fun x => x.order_id == mo.order_id)
        omega
    · refine ih (trade_step tk st m0) ?_ mo hmo'
      intro m hm
      have hbd := h m (List.mem_cons_of_mem m0 hm)
      by_cases hbb : m.is_bid
      · rw [if_pos hbb] at hbd ⊢
        have hle := (bids_trade_step_sublist tk st m0).countP_le
          (fun x => x.order_id == m.order_id)
        omega
      · rw [if_neg hbb] at hbd ⊢
        have hle := (asks_trade_step_sublist tk st m0).countP_le
          (fun x => x.order_id == m.order_id)
        omega

/-- C8: processing a `confirm_trade` removes every making order it names
from the book selected by that order's `is_bid` flag — even when the
maker's `traded_volume` is strictly less than its resting `volume` — and
re-inserts nothing: both resulting books are sublists of the originals.
(The hypothesis asks that each named id occur at most once in its book, as
guaranteed by the book invariant.) -/
theorem trade_removes_maker (s : TraderState) (msg : Trade)
    (h : ∀ mo ∈ msg.making_orders,
      ((if mo.is_bid then s.bids else s.asks).countP
        (fun x => x.order_id == mo.order_id)) ≤ 1) :
    (∀ mo ∈ msg.making_orders,
      ∀ x ∈ (if mo.is_bid then (handle_confirm_trade msg s).bids
             else (handle_confirm_trade msg s).asks),
        x.order_id ≠ mo.order_id) ∧
    (handle_confirm_trade msg s).bids.Sublist s.bids ∧
    (handle_confirm_trade msg s).asks.Sublist s.asks := by
  refine ⟨?_, ?_, ?_⟩
  · intro mo hmo x hx
    have h0 := trade_fold_removes msg.taking_order msg.making_orders s h mo hmo
    have hbooks : (if mo.is_bid then (handle_confirm_trade msg s).bids
        else (handle_confirm_trade msg s).asks) =
        (if mo.is_bid then (msg.making_orders.foldl (trade_step msg.taking_order) s).bids
        else (msg.making_orders.foldl (trade_step msg.taking_order) s).asks) := by
      by_cases hb : mo.is_bid <;>
        simp [hb, bids_handle_confirm_trade, asks_handle_confirm_trade]
    rw [hbooks] at hx
    have := List.countP_eq_zero.mp h0 x hx
    simpa using this
  · rw [bids_handle_confirm_trade]
    exact bids_trade_fold_sublist _ _ _
  · rw [asks_handle_confirm_trade]
    exact asks_trade_fold_sublist _ _ _

theorem trade_removes_maker_witness :
    makerLowFill.traded_volume < makerLowFill.volume ∧
    (∀ mo ∈ trOthers.making_orders,
      ∀ x ∈ (if mo.is_bid then (handle_confirm_trade trOthers stateC8).bids
             else (handle_confirm_trade trOthers stateC8).asks),
        x.order_id ≠ mo.order_id) :=
  ⟨by decide, (trade_removes_maker stateC8 trOthers (by decide)).1⟩

theorem bids_handle_confirm_cancel (o : Order) (s : TraderState) :
    (handle_confirm_cancel o s).bids = (remove_order o s).bids := by
  unfold handle_confirm_cancel
  by_cases hp : o.pcode = (remove_order o s).pcode
  · by_cases hb : o.is_bid
    · simp [hp, hb]
    · simp [hp, hb]
  · simp [hp]

theorem asks_handle_confirm_cancel (o : Order) (s : TraderState) :
    (handle_confirm_cancel o s).asks = (remove_order o s).asks := by
  unfold handle_confirm_cancel
  by_cases hp : o.pcode = (remove_order o s).pcode
  · by_cases hb : o.is_bid
    · simp [hp, hb]
    · simp [hp, hb]
  · simp [hp]

theorem ids_sublist {s t : TraderState} (hb : s.bids.Sublist t.bids)
    (ha : s.asks.Sublist t.asks) : (ids s).Sublist (ids t) := by
  unfold ids
  exact (hb.map (·.order_id)).append (ha.map (·.order_id))

theorem step_preserves_nodup (m : Msg) (s : TraderState)
    (h1 : (ids s).Nodup) (h2 : enter_ok m s = true) : (ids (step m s)).Nodup := by
  cases m with
  | confirm_enter o =>
    have hmem : o.order_id ∉ ids s := by simpa [enter_ok] using h2
    show (ids (handle_confirm_enter o s)).Nodup
    by_cases hb : o.is_bid
    · have he : handle_confirm_enter o s = insert_bid o s := by
        unfold handle_confirm_enter
        simp [hb]
      have hperm : List.Perm (ids (handle_confirm_enter o s)) (o.order_id :: ids s) := by
        rw [he]
        unfold ids
        rw [bids_insert_bid, asks_insert_bid]
        exact ((insert_bid_list_perm s.bids o).map (·.order_id)).append_right _
      exact (hperm.nodup_iff).mpr (List.nodup_cons.mpr ⟨hmem, h1⟩)
    · have he : handle_confirm_enter o s = insert_ask o s := by
        unfold handle_confirm_enter
        simp [hb]
      have hperm : List.Perm (ids (handle_confirm_enter o s)) (o.order_id :: ids s) := by
        rw [he]
        unfold ids
        rw [asks_insert_ask, bids_insert_ask]
        refine List.Perm.trans ?_ List.perm_middle
        exact ((insert_ask_list_perm s.asks o).map (·.order_id)).append_left _
      exact (hperm.nodup_iff).mpr (List.nodup_cons.mpr ⟨hmem, h1⟩)
  | confirm_trade t =>
    show (ids (handle_confirm_trade t s)).Nodup
    refine (ids_sublist ?_ ?_).nodup h1
    · rw [bids_handle_confirm_trade]
      exact bids_trade_fold_sublist _ _ _
    · rw [asks_handle_confirm_trade]
      exact asks_trade_fold_sublist _ _ _
  | confirm_cancel o =>
    show (ids (handle_confirm_cancel o s)).Nodup
    refine (ids_sublist ?_ ?_).nodup h1
    · rw [bids_handle_confirm_cancel, bids_remove_order]
      by_cases hb : o.is_bid
      · rw [if_pos hb]
        exact remove_order_list_sublist _ _
      · rw [if_neg hb]
    · rw [asks_handle_confirm_cancel, asks_remove_order]
      by_cases hb : o.is_bid
      · rw [if_pos hb]
      · rw [if_neg hb]
        exact remove_order_list_sublist _ _
  | error e => exact h1
  | other ty => exact h1

/-- C9: along any event sequence in which every `confirm_enter` satisfies
its precondition (the entered `order_id` is not already resident in either
book), each `order_id` appears at most once across the bids and asks lists
combined, after every processed event. -/
theorem order_ids_unique (s : TraderState) (msgs : List Msg)
    (h1 : (ids s).Nodup) (h2 : valid_msgs s msgs = true) :
    ∀ n, (ids (run s (msgs.take n))).Nodup := by
  induction msgs generalizing s with
  | nil =>
    intro n
    simpa [run] using h1
  | cons m rest ih =>
    intro n
    simp only [valid_msgs, Bool.and_eq_true] at h2
    cases n with
    | zero => simpa [run] using h1
    | succ k =>
      rw [List.take_succ_cons, run_cons]
      exact ih (step m s) (step_preserves_nodup m s h1 h2.1) h2.2 k

theorem order_ids_unique_witness :
    (ids (run st0 (msgsC9.take 3))).Nodup :=
  order_ids_unique st0 msgsC9 (by decide) (by decide) 3
